import Mathlib

/-!
Verification of the ModelicaMatReader core (src/main.py) against its
specification.  The reader's pure logic is shallowly embedded below:
floating-point samples are modelled as exact rationals, Python `dict`
assignment as a cons-overwriting association list, numpy row indexing
(including negative wrap-around) as `pyIdx`, and every exception that the
source swallows as an `Option` that is `none`.
-/

namespace ModelicaMat

/-- A variable's sample series (Python `list` of floats, modelled as `ℚ`). -/
abbrev Series := List Rat

/-- The resolved table `self.values` (a Python dict).  Insertion conses on
the front and lookup takes the first hit, which models dict overwrite
semantics for lookup. -/
abbrev Table := List (String × Series)

/-- Dict lookup: `values.get(k)`. -/
def tget (t : Table) (k : String) : Option Series :=
  match t.find? (fun p => p.1 == k) with
  | none => none
  | some p => some p.2

/-- Dict assignment `values[k] = v` (overwrites any earlier binding as far
as `tget` can observe). -/
def tinsert (t : Table) (k : String) (v : Series) : Table :=
  (k, v) :: t

/-- Python / numpy indexing `l[i]` with negative wrap-around: a negative
index counts from the end; an index out of range on either side raises,
modelled as `none`. -/
def pyIdx {α : Type} (l : List α) (i : Int) : Option α :=
  let j : Int := if i < 0 then i + l.length else i
  if 0 ≤ j then l.get? j.toNat else none

/-! ## VariableNameDecoder (`_parse_keys_original`) -/

/-- The inner row walk of `_parse_keys_original` for one column `c`:
stop on a row shorter than `c` (the source's `len(row) < xx` check), on an
out-of-bounds character access (the swallowed exception), or on the null
character; otherwise accumulate the character and continue. -/
def scanColumn : List (List Char) → Nat → List Char
  | [], _ => []
  | row :: rest, c =>
    if row.length < c then []
    else
      match row.get? c with
      | none => []
      | some ch => if ch = Char.ofNat 0 then [] else ch :: scanColumn rest c

/-- `_parse_keys_original`: the column loop runs over
`range(len(name[0]) - 1)` and the row loop over `range(len(name) - 1)`
(so the last row is never read).  Accessing `name[0]` on an empty matrix
raises, modelled as `none`. -/
def parseKeys (name : List (List Char)) : Option (List String) :=
  match name with
  | [] => none
  | r0 :: _ =>
    some ((List.range (r0.length - 1)).map
      (fun c => String.mk (scanColumn (name.take (name.length - 1)) c)))

/-! ## VariableValueResolver (`_parse_values_original`, `_extract_time_original`) -/

/-- One iteration body of `_parse_values_original`: read the `dataInfo`
column at `index` (an out-of-range access raises → `none`), require the
block selector to be `1` or `2`, and fetch row `rowIndex - 1` of the
selected block with Python indexing semantics. -/
def tryResolve (dataInfo : List (Int × Int)) (d1 d2 : List (List Rat))
    (index : Nat) : Option Series :=
  match dataInfo.get? index with
  | none => none
  | some di =>
    if di.1 = 1 then pyIdx d1 (di.2 - 1)
    else if di.1 = 2 then pyIdx d2 (di.2 - 1)
    else none

/-- One loop step of `_parse_values_original`: on success assign
`values[name] = series`, on any failure leave the table untouched. -/
def resolveStep (dataInfo : List (Int × Int)) (d1 d2 : List (List Rat))
    (tbl : Table) (p : Nat × String) : Table :=
  match tryResolve dataInfo d1 d2 p.1 with
  | some s => tinsert tbl p.2 s
  | none => tbl

/-- The `for index, value in enumerate(self.keys)` loop with its running
index. -/
def parseValuesAux (dataInfo : List (Int × Int)) (d1 d2 : List (List Rat)) :
    Table → Nat → List String → Table
  | tbl, _, [] => tbl
  | tbl, i, k :: rest =>
    parseValuesAux dataInfo d1 d2 (resolveStep dataInfo d1 d2 tbl (i, k)) (i + 1) rest

/-- `_parse_values_original`: build the resolved table from scratch. -/
def parseValues (keys : List String) (dataInfo : List (Int × Int))
    (d1 d2 : List (List Rat)) : Table :=
  parseValuesAux dataInfo d1 d2 [] 0 keys

/-- `_extract_time_original`: row 0 of `data_2`, or `[]` when that access
raises. -/
def extractTime (d2 : List (List Rat)) : Series :=
  match d2.head? with
  | some r => r
  | none => []

/-! ## ExpressionEvaluator (`_is_expression`, `_evaluate_expression`) -/

/-- `_is_expression`: the key contains one of the operator characters. -/
def isExpression (key : String) : Bool :=
  (['+', '-', '*', '/', '(', ')'] : List Char).any (fun op => key.toList.contains op)

/-- Python `str.split(sep)` for a single-character separator: split at
every occurrence, keeping empty parts (so `"".split("-") = [""]`). -/
def splitOnChar (sep : Char) : List Char → List (List Char)
  | [] => [[]]
  | c :: rest =>
    if c = sep then [] :: splitOnChar sep rest
    else
      match splitOnChar sep rest with
      | [] => [[c]]
      | p :: ps => (c :: p) :: ps

/-- Python `str.split('-')` on a string. -/
def pySplit (sep : Char) (s : String) : List String :=
  (splitOnChar sep s.toList).map String.mk

/-- Python `str.strip()`: drop whitespace from both ends. -/
def pyStrip (s : String) : String :=
  String.mk (((s.toList.dropWhile Char.isWhitespace).reverse.dropWhile
    Char.isWhitespace).reverse)

/-- `_evaluate_expression`: only keys containing both `-` and `[` that
split on `-` into exactly two parts are handled; both stripped operands
must resolve to non-empty series of equal length, in which case the
elementwise difference is returned; every other case yields `[]`. -/
def evaluateExpression (expression : String) (values : Table) : Series :=
  if expression.toList.contains '-' && expression.toList.contains '[' then
    match pySplit '-' expression with
    | [p1, p2] =>
      let v1 := (tget values (pyStrip p1)).getD []
      let v2 := (tget values (pyStrip p2)).getD []
      if !v1.isEmpty && !v2.isEmpty && v1.length == v2.length then
        List.zipWith (fun a b => a - b) v1 v2
      else []
    | _ => []
  else []

/-! ## readVariables -/

/-- The per-request-key body of `read_variables`: expression keys go to the
evaluator (even when literally present in the table), other keys to a
table lookup with `[]` default. -/
def readVarOne (values : Table) (k : String) : Series :=
  if isExpression k then evaluateExpression k values
  else (tget values k).getD []

/-- `read_variables`: one series per requested key, in request order, plus
the time vector. -/
def readVariables (values : Table) (timeVector : Series)
    (readKeys : List String) : List Series × Series :=
  (readKeys.map (readVarOne values), timeVector)

/-! ## VariableClassifier (`get_variable_categories`) -/

/-- The seven category labels of `get_variable_categories`. -/
inductive Category where
  | time
  | electrical
  | thermal
  | mechanical
  | control
  | fault
  | other
deriving DecidableEq, Repr

/-- Python `str.lower()` (ASCII lowering suffices for the keyword rules). -/
def lowerStr (s : String) : String :=
  String.mk (s.toList.map Char.toLower)

/-- Python substring containment `sub in s`. -/
def containsSub (s sub : String) : Bool :=
  (s.toList.tails).any (fun t => sub.toList.isPrefixOf t)

/-- Rule 1 of the classifier chain. -/
def isTimeName (kl : String) : Bool := containsSub kl "time"

/-- Rule 2: electrical keywords. -/
def isElectricalName (kl : String) : Bool :=
  (["voltage", "current", "power", "v[", "i[", "p[", "volt", "amp", "dc", "ac"] :
    List String).any (fun kw => containsSub kl kw)

/-- Rule 3: thermal keywords. -/
def isThermalName (kl : String) : Bool :=
  (["temp", "heat", "cool", "thermal"] : List String).any (fun kw => containsSub kl kw)

/-- Rule 4: mechanical keywords. -/
def isMechanicalName (kl : String) : Bool :=
  (["speed", "torque", "rpm", "mechanical", "omega"] : List String).any
    (fun kw => containsSub kl kw)

/-- Rule 5: control keywords. -/
def isControlName (kl : String) : Bool :=
  (["control", "ref", "cmd", "set", "governor"] : List String).any
    (fun kw => containsSub kl kw)

/-- Rule 6: fault keywords. -/
def isFaultName (kl : String) : Bool :=
  (["fault", "error", "alarm", "trip"] : List String).any (fun kw => containsSub kl kw)

/-- The `if/elif` chain of `get_variable_categories`, applied to one name. -/
def classifyName (key : String) : Category :=
  let kl := lowerStr key
  if isTimeName kl then .time
  else if isElectricalName kl then .electrical
  else if isThermalName kl then .thermal
  else if isMechanicalName kl then .mechanical
  else if isControlName kl then .control
  else if isFaultName kl then .fault
  else .other

/-- The six keyword rules in the exact order the source tests them. -/
def ruleOrder : List Category :=
  [.time, .electrical, .thermal, .mechanical, .control, .fault]

/-- Whether the rule for a given category matches the lowered name
(`other` is the fall-through, so it never "matches"). -/
def ruleMatches (kl : String) : Category → Bool
  | .time => isTimeName kl
  | .electrical => isElectricalName kl
  | .thermal => isThermalName kl
  | .mechanical => isMechanicalName kl
  | .control => isControlName kl
  | .fault => isFaultName kl
  | .other => false

/-- `get_variable_categories`: walk the keys in order, appending each to
the list of its classified category. -/
def getVariableCategories (keys : List String) : Category → List String :=
  keys.foldl
    (fun acc key => fun c => if classifyName key = c then acc c ++ [key] else acc c)
    (fun _ => [])

/-! ## StatisticsEngine (`get_variable_stats`) -/

/-- The statistics record returned by `get_variable_stats`.  `np.std`
returns the square root of the population variance; to stay in exact
arithmetic the embedding carries that variance (`stdSq`), i.e. the square
of the reported standard deviation. -/
structure VarStats where
  min : Rat
  max : Rat
  mean : Rat
  stdSq : Rat
  size : Nat
deriving DecidableEq, Repr

/-- `np.min` over a non-empty list (fold of the binary minimum). -/
def listMin : List Rat → Rat
  | [] => 0
  | x :: xs => xs.foldl min x

/-- `np.max` over a non-empty list. -/
def listMax : List Rat → Rat
  | [] => 0
  | x :: xs => xs.foldl max x

/-- `get_variable_stats`: `None` when the name is absent or its series is
empty; otherwise min, max, arithmetic mean, population variance
(denominator = count) and sample count over the full series. -/
def getVariableStats (values : Table) (varName : String) : Option VarStats :=
  match tget values varName with
  | none => none
  | some data =>
    if data.length = 0 then none
    else
      some { min := listMin data
             max := listMax data
             mean := data.sum / (data.length : Rat)
             stdSq := ((data.map
                (fun v => (v - data.sum / (data.length : Rat)) ^ 2)).sum) /
                  (data.length : Rat)
             size := data.length }

/-! ## load_data -/

/-- The raw result of `scio.loadmat`, restricted to the fields the reader
touches.  A missing `name` key makes `_parse_keys_original` raise, so
`name` is optional; a missing `dataInfo`, `data_1` or `data_2` key only
makes the per-item or time-vector accesses fail, which is observationally
the same as the empty list. -/
structure RawData where
  name : Option (List (List Char))
  dataInfo : List (Int × Int)
  data_1 : List (List Rat)
  data_2 : List (List Rat)

/-- The mutable fields of `ModelicaMatReader`. -/
structure ReaderState where
  file_path : Option String
  data : Option RawData
  keys : List String
  values : Table
  time_vector : Series
deriving Inhabited

/-- `load_data`: `self.file_path` is assigned before the `try` block;
`raw = none` models `scio.loadmat` raising; after a successful load the
key list, resolved table and time vector are replaced wholesale.
`_parse_keys_original` raises (failure outcome) when the `name` field is
missing or the matrix is empty; the diagnostic message strings are
abstracted to fixed non-empty placeholders. -/
def loadData (st : ReaderState) (filePath : String) (raw : Option RawData) :
    ReaderState × (Bool × String) :=
  let st1 := { st with file_path := some filePath }
  match raw with
  | none => (st1, (false, "load failed"))
  | some d =>
    let st2 := { st1 with data := some d }
    match d.name with
    | none => (st2, (false, "load failed"))
    | some nm =>
      match parseKeys nm with
      | none => (st2, (false, "load failed"))
      | some ks =>
        ({ st2 with
            keys := ks
            values := parseValues ks d.dataInfo d.data_1 d.data_2
            time_vector := extractTime d.data_2 },
         (true, "load succeeded"))

/-! ## Auxiliary definitions used by the analysis -/

/-- The series assigned to name `n` by the suffix of the resolution loop
that starts at running index `i`: the **last** iteration whose key equals
`n` and whose `tryResolve` succeeds (failed iterations are skipped). -/
def lastSuccessFrom (dataInfo : List (Int × Int)) (d1 d2 : List (List Rat))
    (i : Nat) : List String → String → Option Series
  | [], _ => none
  | k :: rest, n =>
    match lastSuccessFrom dataInfo d1 d2 (i + 1) rest n with
    | some s => some s
    | none => if k = n then tryResolve dataInfo d1 d2 i else none

/-- The column-`c` character stream of a row list, one entry per row:
`none` marks a stop condition (row shorter than `c`, out-of-bounds access,
or null character), `some ch` an accumulated character. -/
def columnEntries (rows : List (List Char)) (c : Nat) : List (Option Char) :=
  rows.map (fun row =>
    if row.length < c then none
    else
      match row.get? c with
      | none => none
      | some ch => if ch = Char.ofNat 0 then none else some ch)

/-- Follows the claim's words (not the source): the characters of column
`c`, read from row 0 upward over the given rows, that precede the first
null character or the first ragged/out-of-bounds truncation boundary. -/
def claimColumnName (rows : List (List Char)) (c : Nat) : String :=
  String.mk (((columnEntries rows c).takeWhile Option.isSome).filterMap id)

/-! ## Lemmas about the resolver fold -/

theorem tget_tinsert (t : Table) (k : String) (v : Series) (n : String) :
    tget (tinsert t k v) n = if k = n then some v else tget t n := by
  by_cases h : k = n
  · simp [tget, tinsert, List.find?, h]
  · have hb : (k == n) = false := beq_eq_false_iff_ne.mpr h
    simp [tget, tinsert, List.find?, h, hb]

theorem tget_parseValuesAux (dataInfo : List (Int × Int)) (d1 d2 : List (List Rat)) :
    ∀ (ks : List String) (tbl : Table) (i : Nat) (n : String),
      tget (parseValuesAux dataInfo d1 d2 tbl i ks) n =
        match lastSuccessFrom dataInfo d1 d2 i ks n with
        | some s => some s
        | none => tget tbl n := by
  intro ks
  induction ks with
  | nil => intro tbl i n; rfl
  | cons k rest ih =>
    intro tbl i n
    have hstep :
        parseValuesAux dataInfo d1 d2 tbl i (k :: rest) =
          parseValuesAux dataInfo d1 d2 (resolveStep dataInfo d1 d2 tbl (i, k)) (i + 1) rest := rfl
    rw [hstep, ih]
    cases hrest : lastSuccessFrom dataInfo d1 d2 (i + 1) rest n with
    | some s => simp [lastSuccessFrom, hrest]
    | none =>
      cases htr : tryResolve dataInfo d1 d2 i with
      | some s =>
        by_cases hk : k = n
        · simp [lastSuccessFrom, hrest, resolveStep, htr, tget_tinsert, hk]
        · simp [lastSuccessFrom, hrest, resolveStep, htr, tget_tinsert, hk]
      | none =>
        by_cases hk : k = n
        · simp [lastSuccessFrom, hrest, resolveStep, htr, hk]
        · simp [lastSuccessFrom, hrest, resolveStep, htr, hk]

theorem tget_parseValues (keys : List String) (dataInfo : List (Int × Int))
    (d1 d2 : List (List Rat)) (n : String) :
    tget (parseValues keys dataInfo d1 d2) n =
      lastSuccessFrom dataInfo d1 d2 0 keys n := by
  rw [parseValues, tget_parseValuesAux]
  cases lastSuccessFrom dataInfo d1 d2 0 keys n with
  | some s => rfl
  | none => rfl

theorem lastSuccessFrom_none (dataInfo : List (Int × Int)) (d1 d2 : List (List Rat)) :
    ∀ (ks : List String) (i : Nat) (n : String),
      (∀ q k, ks.get? q = some k → k = n → tryResolve dataInfo d1 d2 (i + q) = none) →
      lastSuccessFrom dataInfo d1 d2 i ks n = none := by
  intro ks
  induction ks with
  | nil => intro i n _; rfl
  | cons k rest ih =>
    intro i n h
    have hrest : lastSuccessFrom dataInfo d1 d2 (i + 1) rest n = none := by
      apply ih
      intro q k' hq hk'
      have := h (q + 1) k' (by simpa using hq) hk'
      have harith : i + (q + 1) = i + 1 + q := by omega
      rw [harith] at this
      exact this
    by_cases hk : k = n
    · have h0 := h 0 k (by simp) hk
      simp only [Nat.add_zero] at h0
      simp [lastSuccessFrom, hrest, hk, h0]
    · simp [lastSuccessFrom, hrest, hk]

theorem lastSuccessFrom_spec (dataInfo : List (Int × Int)) (d1 d2 : List (List Rat)) :
    ∀ (ks : List String) (i p : Nat) (n : String) (s : Series),
      ks.get? p = some n →
      tryResolve dataInfo d1 d2 (i + p) = some s →
      (∀ q k, p < q → ks.get? q = some k → k = n →
        tryResolve dataInfo d1 d2 (i + q) = none) →
      lastSuccessFrom dataInfo d1 d2 i ks n = some s := by
  intro ks
  induction ks with
  | nil => intro i p n s hp; simp at hp
  | cons k rest ih =>
    intro i p n s hp htr hlater
    cases p with
    | zero =>
      have hk : k = n := by simpa using hp
      have hrest : lastSuccessFrom dataInfo d1 d2 (i + 1) rest n = none := by
        apply lastSuccessFrom_none
        intro q k' hq hk'
        have := hlater (q + 1) k' (Nat.succ_pos q) (by simpa using hq) hk'
        have harith : i + (q + 1) = i + 1 + q := by omega
        rw [harith] at this
        exact this
      simp only [Nat.add_zero] at htr
      simp [lastSuccessFrom, hrest, hk, htr]
    | succ p' =>
      have hrest : lastSuccessFrom dataInfo d1 d2 (i + 1) rest n = some s := by
        apply ih (i + 1) p' n s (by simpa using hp)
        · have harith : i + (p' + 1) = i + 1 + p' := by omega
          rw [harith] at htr
          exact htr
        · intro q k' hq hget hk'
          have := hlater (q + 1) k' (by omega) (by simpa using hget) hk'
          have harith : i + (q + 1) = i + 1 + q := by omega
          rw [harith] at this
          exact this
      simp [lastSuccessFrom, hrest]

/-! ## Lemmas about the name-column scan -/

theorem scanColumn_eq_takeWhile :
    ∀ (rows : List (List Char)) (c : Nat),
      scanColumn rows c =
        ((columnEntries rows c).takeWhile Option.isSome).filterMap id := by
  intro rows
  induction rows with
  | nil => intro c; rfl
  | cons row rest ih =>
    intro c
    by_cases hlen : row.length < c
    · simp [scanColumn, columnEntries, hlen, List.takeWhile_cons]
    · cases hget : row.get? c with
      | none =>
        have hget2 : row[c]? = none := by simpa [List.get?_eq_getElem?] using hget
        simp [scanColumn, columnEntries, hlen, hget, hget2, List.takeWhile_cons]
      | some ch =>
        have hget2 : row[c]? = some ch := by simpa [List.get?_eq_getElem?] using hget
        by_cases hnull : ch = Char.ofNat 0
        · simp [scanColumn, columnEntries, hlen, hget, hget2, hnull, List.takeWhile_cons]
        · simp [scanColumn, columnEntries, hlen, hget, hget2, hnull,
            List.takeWhile_cons, ih c]

/-! ## Lemmas about the classifier -/

theorem getVariableCategories_foldl_general (step : (Category → List String) → String → Category → List String)
    (hstep : step = fun acc key => fun c =>
      if classifyName key = c then acc c ++ [key] else acc c) :
    ∀ (ks : List String) (f : Category → List String) (c : Category),
      (ks.foldl step f) c = f c ++ ks.filter (fun k => decide (classifyName k = c)) := by
  intro ks
  induction ks with
  | nil => intro f c; simp
  | cons k rest ih =>
    intro f c
    have hfold : (k :: rest).foldl step f = rest.foldl step (step f k) := rfl
    rw [hfold, ih]
    by_cases hk : classifyName k = c
    · simp [hstep, hk, List.filter_cons]
    · simp [hstep, hk, List.filter_cons]

theorem getVariableCategories_eq_filter (keys : List String) (c : Category) :
    getVariableCategories keys c =
      keys.filter (fun k => decide (classifyName k = c)) := by
  have h := getVariableCategories_foldl_general _ rfl keys (fun _ => []) c
  simpa [getVariableCategories] using h

theorem mem_getVariableCategories (keys : List String) (c : Category) (k : String) :
    k ∈ getVariableCategories keys c ↔ (k ∈ keys ∧ classifyName k = c) := by
  rw [getVariableCategories_eq_filter]
  simp [List.mem_filter]

theorem classifyName_eq_firstMatch (key : String) :
    classifyName key =
      ((ruleOrder.find? (ruleMatches (lowerStr key))).getD .other) := by
  unfold classifyName ruleOrder
  cases h1 : isTimeName (lowerStr key) <;>
    cases h2 : isElectricalName (lowerStr key) <;>
      cases h3 : isThermalName (lowerStr key) <;>
        cases h4 : isMechanicalName (lowerStr key) <;>
          cases h5 : isControlName (lowerStr key) <;>
            cases h6 : isFaultName (lowerStr key) <;>
              simp [List.find?, ruleMatches, h1, h2, h3, h4, h5, h6]

/-! ## Lemmas about min/max folds -/

theorem foldl_min_mem : ∀ (xs : List Rat) (x : Rat), xs.foldl min x ∈ x :: xs := by
  intro xs
  induction xs with
  | nil => intro x; simp
  | cons y ys ih =>
    intro x
    have h := ih (min x y)
    rcases List.mem_cons.mp h with hhead | htail
    · rcases min_choice x y with hx | hy
      · rw [List.foldl_cons, hhead, hx]; simp
      · rw [List.foldl_cons, hhead, hy]; simp
    · rw [List.foldl_cons]
      exact List.mem_cons_of_mem _ (List.mem_cons_of_mem _ htail)

theorem foldl_min_le_init : ∀ (xs : List Rat) (x : Rat), xs.foldl min x ≤ x := by
  intro xs
  induction xs with
  | nil => intro x; simp
  | cons y ys ih =>
    intro x
    calc (y :: ys).foldl min x = ys.foldl min (min x y) := by rw [List.foldl_cons]
    _ ≤ min x y := ih (min x y)
    _ ≤ x := min_le_left x y

theorem foldl_min_le_mem : ∀ (xs : List Rat) (x y : Rat), y ∈ xs → xs.foldl min x ≤ y := by
  intro xs
  induction xs with
  | nil => intro x y hy; simp at hy
  | cons z zs ih =>
    intro x y hy
    rcases List.mem_cons.mp hy with hz | hzs
    · calc (z :: zs).foldl min x = zs.foldl min (min x z) := by rw [List.foldl_cons]
      _ ≤ min x z := foldl_min_le_init zs (min x z)
      _ ≤ z := min_le_right x z
      _ = y := hz.symm
    · rw [List.foldl_cons]
      exact ih (min x z) y hzs

theorem foldl_max_mem : ∀ (xs : List Rat) (x : Rat), xs.foldl max x ∈ x :: xs := by
  intro xs
  induction xs with
  | nil => intro x; simp
  | cons y ys ih =>
    intro x
    have h := ih (max x y)
    rcases List.mem_cons.mp h with hhead | htail
    · rcases max_choice x y with hx | hy
      · rw [List.foldl_cons, hhead, hx]; simp
      · rw [List.foldl_cons, hhead, hy]; simp
    · rw [List.foldl_cons]
      exact List.mem_cons_of_mem _ (List.mem_cons_of_mem _ htail)

theorem foldl_max_ge_init : ∀ (xs : List Rat) (x : Rat), x ≤ xs.foldl max x := by
  intro xs
  induction xs with
  | nil => intro x; simp
  | cons y ys ih =>
    intro x
    calc x ≤ max x y := le_max_left x y
    _ ≤ ys.foldl max (max x y) := ih (max x y)
    _ = (y :: ys).foldl max x := by rw [List.foldl_cons]

theorem foldl_max_ge_mem : ∀ (xs : List Rat) (x y : Rat), y ∈ xs → y ≤ xs.foldl max x := by
  intro xs
  induction xs with
  | nil => intro x y hy; simp at hy
  | cons z zs ih =>
    intro x y hy
    rcases List.mem_cons.mp hy with hz | hzs
    · calc y = z := hz
      _ ≤ max x z := le_max_right x z
      _ ≤ zs.foldl max (max x z) := foldl_max_ge_init zs (max x z)
      _ = (z :: zs).foldl max x := by rw [List.foldl_cons]
    · rw [List.foldl_cons]
      exact ih (max x z) y hzs

/-! ## Claim C1 -/

/-- C1 counterexample: the name `der(x)` is literally present in the
resolved table, yet `read_variables` routes it through expression
evaluation (because it contains `(`) and returns an empty series instead
of the resolved one — refuting "the result is the literal resolved series
when the name is present". -/
theorem readVariables_literal_counterexample :
    tget [("der(x)", [(1 : Rat)])] "der(x)" = some [1] ∧
    (readVariables [("der(x)", [(1 : Rat)])] [] ["der(x)"]).1 = [[]] ∧
    ([([] : Series)] ≠ [[(1 : Rat)]]) := by
  refine ⟨by decide, by decide, by decide⟩

/-- C1 amended: for each requested name, if the name contains an operator
character the evaluator is consulted (even when the name is literally
present in the table); otherwise the literal resolved series is returned
if present and the empty series if absent.  The output has the same
length and order as the request, the time vector is passed through, and
the computation is total (never raises). -/
theorem readVariables_routing (values : Table) (tv : Series) (keys : List String) :
    (readVariables values tv keys).1.length = keys.length ∧
    (readVariables values tv keys).2 = tv ∧
    (∀ i : Nat, (readVariables values tv keys).1.get? i =
      (keys.get? i).map (fun k =>
        if isExpression k then evaluateExpression k values
        else (tget values k).getD [])) ∧
    (∀ i k, keys.get? i = some k → isExpression k = false →
      (readVariables values tv keys).1.get? i = some ((tget values k).getD [])) := by
  have hfst : (readVariables values tv keys).1 = keys.map (readVarOne values) := rfl
  refine ⟨by simp [readVariables], rfl, ?_, ?_⟩
  · intro i
    rw [hfst, List.get?_map]
    cases keys.get? i with
    | none => rfl
    | some k => rfl
  · intro i k hk hexp
    rw [hfst, List.get?_map, hk]
    simp [readVarOne, hexp]

/-- C1 witness: the amended routing theorem at a concrete input. -/
theorem readVariables_routing_witness :
    (readVariables [("a", [(2 : Rat)])] [] ["a"]).1.get? 0 = some [2] := by
  have h := (readVariables_routing [("a", [(2 : Rat)])] [] ["a"]).2.2.2 0 "a" rfl (by decide)
  rw [h]
  decide

/-! ## Claim C2 -/

/-- C2 counterexample: for the `dataInfo` pair `(1, 0)` the 0-based row
index `0 - 1 = -1` is negative, so the claim says the name must be absent
from the resolved table; but Python/numpy negative indexing wraps around
and selects the last row of block 1, so an entry **is** produced. -/
theorem resolve_negative_row_counterexample :
    ((0 : Int) - 1 < 0) ∧
    tget (parseValues ["a"] [(1, 0)] [[(7 : Rat)]] []) "a" = some [7] := by
  refine ⟨by decide, by decide⟩

/-- C2 amended: a name is absent from the resolved table exactly when every
occurrence of it fails to resolve; a successful resolution requires a
block selector of `1` or `2` and a row index whose 0-based form is valid
under Python indexing (negative values wrap around from the end), and the
resolved series is the selected block row itself — hence of that row's
length; the series stored for a name is the one of its last successful
occurrence. -/
theorem resolve_validity (keys : List String) (dataInfo : List (Int × Int))
    (d1 d2 : List (List Rat)) (name : String) :
    ((∀ i, keys.get? i = some name → tryResolve dataInfo d1 d2 i = none) →
      tget (parseValues keys dataInfo d1 d2) name = none) ∧
    (∀ i s, keys.get? i = some name → tryResolve dataInfo d1 d2 i = some s →
      (∀ j, i < j → keys.get? j = some name → tryResolve dataInfo d1 d2 j = none) →
      tget (parseValues keys dataInfo d1 d2) name = some s) ∧
    (∀ i s, tryResolve dataInfo d1 d2 i = some s →
      ∃ sel row, dataInfo.get? i = some (sel, row) ∧ (sel = 1 ∨ sel = 2) ∧
        pyIdx (if sel = 1 then d1 else d2) (row - 1) = some s) := by
  refine ⟨?_, ?_, ?_⟩
  · intro h
    rw [tget_parseValues]
    apply lastSuccessFrom_none
    intro q k hq hk
    subst hk
    simpa using h q hq
  · intro i s hi htr hlater
    rw [tget_parseValues]
    apply lastSuccessFrom_spec dataInfo d1 d2 keys 0 i name s hi (by simpa using htr)
    intro q k hq hget hk
    subst hk
    simpa using hlater q hq hget
  · intro i s htr
    cases hdi : dataInfo.get? i with
    | none =>
      unfold tryResolve at htr
      rw [hdi] at htr
      exact absurd htr (by simp)
    | some di =>
      obtain ⟨sel, row⟩ := di
      have htr2 : (if sel = 1 then pyIdx d1 (row - 1)
          else if sel = 2 then pyIdx d2 (row - 1) else none) = some s := by
        unfold tryResolve at htr
        rw [hdi] at htr
        exact htr
      by_cases h1 : sel = 1
      · refine ⟨sel, row, by simp [hdi], Or.inl h1, ?_⟩
        rw [if_pos h1]
        rw [if_pos h1] at htr2
        exact htr2
      · by_cases h2 : sel = 2
        · refine ⟨sel, row, by simp [hdi], Or.inr h2, ?_⟩
          rw [if_neg h1]
          rw [if_neg h1, if_pos h2] at htr2
          exact htr2
        · rw [if_neg h1, if_neg h2] at htr2
          exact absurd htr2 (by simp)

/-- C2 witness: the amended theorem at a concrete input — `"a"` has a
valid pair `(1, 1)` and resolves to block 1's row 0 (length 2), while
`"b"`'s selector `3` is invalid and `"b"` is absent. -/
theorem resolve_validity_witness :
    tget (parseValues ["a", "b"] [(1, 1), (3, 5)] [[(5 : Rat), 6]] []) "a" = some [5, 6] ∧
    tget (parseValues ["a", "b"] [(1, 1), (3, 5)] [[(5 : Rat), 6]] []) "b" = none := by
  constructor
  · apply (resolve_validity ["a", "b"] [(1, 1), (3, 5)] [[(5 : Rat), 6]] [] "a").2.1
      0 [5, 6] rfl (by decide)
    intro j hj hget
    rcases j with _ | _ | j
    · omega
    · exact absurd hget (by decide)
    · simp at hget
  · apply (resolve_validity ["a", "b"] [(1, 1), (3, 5)] [[(5 : Rat), 6]] [] "b").1
    intro i hget
    rcases i with _ | _ | i
    · exact absurd hget (by decide)
    · decide
    · simp at hget

/-! ## Claim C10 -/

/-- C10: a failed per-index resolution leaves the table exactly as it was
(no removal, no overwrite); consequently, when a name resolves
successfully at an index and every later occurrence of that name fails,
the table keeps the earlier index's series — last-write-wins applies only
among successful resolutions. -/
theorem resolve_failure_preserves (dataInfo : List (Int × Int))
    (d1 d2 : List (List Rat)) :
    (∀ (tbl : Table) (p : Nat × String),
      tryResolve dataInfo d1 d2 p.1 = none →
      resolveStep dataInfo d1 d2 tbl p = tbl) ∧
    (∀ (keys : List String) (name : String) (i : Nat) (s : Series),
      keys.get? i = some name →
      tryResolve dataInfo d1 d2 i = some s →
      (∀ j, i < j → keys.get? j = some name → tryResolve dataInfo d1 d2 j = none) →
      tget (parseValues keys dataInfo d1 d2) name = some s) := by
  constructor
  · intro tbl p h
    simp [resolveStep, h]
  · intro keys name i s hi htr hlater
    rw [tget_parseValues]
    apply lastSuccessFrom_spec dataInfo d1 d2 keys 0 i name s hi (by simpa using htr)
    intro q k hq hget hk
    subst hk
    simpa using hlater q hq hget

/-- C10 witness: the name `"a"` resolves at index 0 and fails at index 1
(invalid selector `3`); the table keeps index 0's series. -/
theorem resolve_failure_preserves_witness :
    tget (parseValues ["a", "a"] [(1, 1), (3, 1)] [[(5 : Rat)]] []) "a" = some [5] := by
  apply (resolve_failure_preserves [(1, 1), (3, 1)] [[(5 : Rat)]] []).2
    ["a", "a"] "a" 0 [5] rfl (by decide)
  intro j hj hget
  rcases j with _ | _ | j
  · omega
  · decide
  · simp at hget

/-! ## Claim C3 -/

/-- C3 counterexample: `evaluate("a-b", table)` with `table["a"]=[5,7,9]`
and `table["b"]=[1,2,3]` returns `[]`, not `[4,5,6]`, because the
evaluator additionally requires a `[` character in the key. -/
theorem evaluate_plain_subtraction_counterexample :
    evaluateExpression "a-b" [("a", [(5 : Rat), 7, 9]), ("b", [1, 2, 3])] = [] ∧
    (([] : Series) ≠ [4, 5, 6]) := by
  refine ⟨by decide, by decide⟩

/-- The successful path of `_evaluate_expression`: a key containing both
`-` and `[` that splits on `-` into exactly two parts whose stripped
operands resolve to non-empty series of equal length evaluates to the
elementwise difference. -/
theorem evaluateExpression_sub_general (key : String) (tbl : Table) (p1 p2 : String)
    (v1 v2 : Series)
    (hminus : key.toList.contains '-' = true)
    (hbracket : key.toList.contains '[' = true)
    (hsplit : pySplit '-' key = [p1, p2])
    (hv1 : tget tbl (pyStrip p1) = some v1)
    (hv2 : tget tbl (pyStrip p2) = some v2)
    (hne : v1 ≠ [])
    (hlen : v1.length = v2.length) :
    evaluateExpression key tbl = List.zipWith (fun a b => a - b) v1 v2 := by
  have hv2ne : v2 ≠ [] := by
    intro h
    subst h
    simp at hlen
    exact hne hlen
  have he1 : v1.isEmpty = false := by
    cases v1 with
    | nil => exact absurd rfl hne
    | cons a l => rfl
  have he2 : v2.isEmpty = false := by
    cases v2 with
    | nil => exact absurd rfl hv2ne
    | cons a l => rfl
  unfold evaluateExpression
  rw [hminus, hbracket, hsplit]
  simp [hv1, hv2, he1, he2, hlen]

/-- C3 amended: for keys that contain both `-` and `[` and split on `-`
into exactly two parts whose stripped operands resolve to non-empty
series of equal length, the evaluator returns the elementwise difference;
the bracketed example `a[1]-b[1]` produces `[4,5,6]`, and with mismatched
lengths it produces `[]`. -/
theorem evaluate_subtraction (key : String) (tbl : Table) (p1 p2 : String)
    (v1 v2 : Series) :
    (key.toList.contains '-' = true →
     key.toList.contains '[' = true →
     pySplit '-' key = [p1, p2] →
     tget tbl (pyStrip p1) = some v1 →
     tget tbl (pyStrip p2) = some v2 →
     v1 ≠ [] →
     v1.length = v2.length →
     evaluateExpression key tbl = List.zipWith (fun a b => a - b) v1 v2) ∧
    evaluateExpression "a[1]-b[1]" [("a[1]", [(5 : Rat), 7, 9]), ("b[1]", [1, 2, 3])] =
      [4, 5, 6] ∧
    evaluateExpression "a[1]-b[1]" [("a[1]", [(5 : Rat), 7, 9]), ("b[1]", [1, 2])] = [] := by
  refine ⟨evaluateExpression_sub_general key tbl p1 p2 v1 v2, ?_, by decide⟩
  have h := evaluateExpression_sub_general "a[1]-b[1]"
    [("a[1]", [(5 : Rat), 7, 9]), ("b[1]", [1, 2, 3])] "a[1]" "b[1]" [5, 7, 9] [1, 2, 3]
    (by decide) (by decide) (by decide) (by decide) (by decide) (by decide) (by decide)
  rw [h]
  norm_num [List.zipWith]

/-- C3 witness: the amended theorem's general clause at a concrete
bracketed input. -/
theorem evaluate_subtraction_witness :
    evaluateExpression "b[1]-c[1]" [("b[1]", [(9 : Rat), 8]), ("c[1]", [1, 2])] = [8, 6] := by
  have h := (evaluate_subtraction "b[1]-c[1]"
      [("b[1]", [(9 : Rat), 8]), ("c[1]", [1, 2])] "b[1]" "c[1]" [9, 8] [1, 2]).1
    (by decide) (by decide) (by decide) (by decide) (by decide) (by decide) (by decide)
  rw [h]
  norm_num [List.zipWith]

/-! ## Claim C4 -/

/-- C4 counterexample: for a 3-row matrix whose first column is
`a`, `b`, `c` (no null characters, no ragged rows), the claim says the
decoded name is `"abc"`, but the decoder's row loop runs over
`range(len(name) - 1)` and never reads the last row, producing `"ab"`. -/
theorem decode_column_counterexample :
    parseKeys [['a', 'x'], ['b', 'y'], ['c', 'z']] = some ["ab"] ∧
    claimColumnName [['a', 'x'], ['b', 'y'], ['c', 'z']] 0 = "abc" ∧
    ("ab" : String) ≠ "abc" := by
  refine ⟨by decide, by decide, by decide⟩

/-- C4 amended: the decoded name for column `c` consists of exactly the
characters of that column, read from row 0 upward over all rows **except
the last one**, that precede the first null character or the first
ragged/out-of-bounds truncation boundary; `decode` is a pure function of
the matrix and hence deterministic. -/
theorem decode_column_chars (rows : List (List Char)) (ks : List String)
    (c : Nat) (s : String) :
    parseKeys rows = some ks →
    ks.get? c = some s →
    s = claimColumnName (rows.take (rows.length - 1)) c := by
  intro hpk hget
  cases rows with
  | nil => simp [parseKeys] at hpk
  | cons r0 rest =>
    have hks : ks = (List.range (r0.length - 1)).map
        (fun j => String.mk (scanColumn ((r0 :: rest).take ((r0 :: rest).length - 1)) j)) := by
      unfold parseKeys at hpk
      exact (Option.some.inj hpk).symm
    rw [hks, List.get?_map] at hget
    by_cases hc : c < r0.length - 1
    · rw [List.get?_range hc] at hget
      have hs : String.mk (scanColumn ((r0 :: rest).take ((r0 :: rest).length - 1)) c) = s :=
        Option.some.inj hget
      rw [← hs, claimColumnName, ← scanColumn_eq_takeWhile]
    · have hnone : (List.range (r0.length - 1)).get? c = none := by
        apply List.get?_eq_none.mpr
        simpa using Nat.le_of_not_lt hc
      rw [hnone] at hget
      exact absurd hget (by simp)

/-- C4 witness: the amended column characterization at the counterexample
matrix. -/
theorem decode_column_chars_witness :
    ("ab" : String) = claimColumnName ([['a', 'x'], ['b', 'y'], ['c', 'z']].take 2) 0 := by
  have h := decode_column_chars [['a', 'x'], ['b', 'y'], ['c', 'z']] ["ab"] 0 "ab"
    (by decide) (by decide)
  simpa using h

/-! ## Claim C5 -/

/-- C5 counterexample: a load that fails at deserialization still updates
the reader's `file_path` field, refuting "no field of the reader reflects
the failed load". -/
theorem load_state_retention_counterexample :
    (loadData ⟨none, none, [], [], []⟩ "bad.mat" none).2.1 = false ∧
    (loadData ⟨none, none, [], [], []⟩ "bad.mat" none).1.file_path = some "bad.mat" ∧
    ReaderState.file_path ⟨none, none, [], [], []⟩ = none := by
  exact ⟨rfl, rfl, rfl⟩

/-- C5 amended: a failed load reports exactly one failure outcome with a
non-empty diagnostic message, and the name list, resolved table and time
series keep their previous values (so callers never observe a
half-populated resolved table); however the `file_path` field (and, when
deserialization succeeded but name parsing failed, the raw-data field) is
updated to reflect the attempted load. -/
theorem load_failure_state (st : ReaderState) (path : String) (raw : Option RawData) :
    (loadData st path raw).2.1 = false →
    ((loadData st path raw).1.keys = st.keys ∧
     (loadData st path raw).1.values = st.values ∧
     (loadData st path raw).1.time_vector = st.time_vector ∧
     (loadData st path raw).1.file_path = some path ∧
     (loadData st path raw).2.2 ≠ "") := by
  intro h
  cases raw with
  | none =>
    refine ⟨rfl, rfl, rfl, rfl, ?_⟩
    intro heq
    have hmsg : (loadData st path none).2.2 = "load failed" := rfl
    rw [hmsg] at heq
    exact absurd heq (by decide)
  | some d =>
    cases hn : d.name with
    | none =>
      simp [loadData, hn]
    | some nm =>
      cases hp : parseKeys nm with
      | none =>
        simp [loadData, hn, hp]
      | some ks =>
        simp [loadData, hn, hp] at h

/-- C5 witness: a failed load on a reader holding an earlier successful
load keeps the earlier keys, table and time vector but rewrites the file
path. -/
theorem load_failure_state_witness :
    (loadData ⟨some "old.mat", none, ["k"], [("k", [(1 : Rat)])], [0]⟩ "new.mat" none).1.values
        = [("k", [(1 : Rat)])] ∧
    (loadData ⟨some "old.mat", none, ["k"], [("k", [(1 : Rat)])], [0]⟩ "new.mat" none).1.file_path
        = some "new.mat" := by
  have h := load_failure_state ⟨some "old.mat", none, ["k"], [("k", [(1 : Rat)])], [0]⟩
    "new.mat" none rfl
  exact ⟨h.2.1, h.2.2.2.1⟩

/-! ## Claim C6 -/

/-- C6: the classifier is total — every name lands in exactly one of the
seven categories — and the assigned category is the one of the **first**
matching rule in the fixed priority order time, electrical, thermal,
mechanical, control, fault, with `other` as fall-through; in particular
`"setpoint_fault"` (control and fault keywords) is classified `control`
and `"busVoltage"` is classified `electrical`. -/
theorem classify_priority :
    (∀ key, classifyName key =
      ((ruleOrder.find? (ruleMatches (lowerStr key))).getD .other)) ∧
    (∀ (keys : List String) (k : String) (c : Category),
      k ∈ getVariableCategories keys c ↔ (k ∈ keys ∧ classifyName k = c)) ∧
    (∀ (keys : List String) (k : String), k ∈ keys →
      ∃! c, k ∈ getVariableCategories keys c) ∧
    classifyName "setpoint_fault" = .control ∧
    classifyName "busVoltage" = .electrical := by
  refine ⟨classifyName_eq_firstMatch, ?_, ?_, by decide, by decide⟩
  · intro keys k c
    exact mem_getVariableCategories keys c k
  · intro keys k hk
    refine ⟨classifyName k, ?_, ?_⟩
    · exact (mem_getVariableCategories keys (classifyName k) k).mpr ⟨hk, rfl⟩
    · intro c hc
      exact ((mem_getVariableCategories keys c k).mp hc).2.symm

/-- C6 witness: the uniqueness clause of the classifier theorem at a
concrete name. -/
theorem classify_priority_witness :
    ∃! c, "busVoltage" ∈ getVariableCategories ["busVoltage"] c :=
  classify_priority.2.2.1 ["busVoltage"] "busVoltage" (by decide)

/-! ## Claim C7 -/

/-- C7: for a name matrix with at least one column, the decoder emits
exactly one name per processed column, in column order, for columns `0`
through `columnCount - 2`, so the returned list has exactly
`columnCount - 1` entries (the final column is excluded). -/
theorem decode_column_count (r0 : List Char) (rest : List (List Char))
    (h : 1 ≤ r0.length) :
    ∃ ks, parseKeys (r0 :: rest) = some ks ∧ ks.length = r0.length - 1 ∧
      ∀ c, c < r0.length - 1 →
        ks.get? c = some (String.mk
          (scanColumn ((r0 :: rest).take ((r0 :: rest).length - 1)) c)) := by
  refine ⟨_, rfl, by simp, ?_⟩
  intro c hc
  rw [List.get?_map, List.get?_range hc]
  rfl

/-- C7 witness: a 1-row matrix with two columns decodes to exactly one
name. -/
theorem decode_column_count_witness :
    ∃ ks, parseKeys [['a', 'b']] = some ks ∧ ks.length = 1 := by
  obtain ⟨ks, h1, h2, _⟩ := decode_column_count ['a', 'b'] [] (by decide)
  exact ⟨ks, h1, by simpa using h2⟩

/-! ## Claim C8 -/

/-- C8: statistics are absent exactly when the variable is missing from
the resolved table or its series is empty; otherwise the result holds the
true minimum, maximum, arithmetic mean and sample count over the full
series, with the population variance (denominator = count, not
count − 1); on `[2,4,4,4,5,5,7,9]` this gives min 2, max 9, mean 5,
count 8 and variance 4 = 2², i.e. population standard deviation 2. -/
theorem stats_spec :
    (∀ (values : Table) (name : String),
      getVariableStats values name = none ↔
        (tget values name = none ∨ tget values name = some [])) ∧
    (∀ (values : Table) (name : String) (v : Series) (st : VarStats),
      tget values name = some v →
      getVariableStats values name = some st →
      (st.size = v.length ∧
       st.min ∈ v ∧ (∀ x ∈ v, st.min ≤ x) ∧
       st.max ∈ v ∧ (∀ x ∈ v, x ≤ st.max) ∧
       st.mean * (v.length : Rat) = v.sum ∧
       st.stdSq * (v.length : Rat) = (v.map (fun x => (x - st.mean) ^ 2)).sum)) ∧
    getVariableStats [("x", [(2 : Rat), 4, 4, 4, 5, 5, 7, 9])] "x" =
      some { min := 2, max := 9, mean := 5, stdSq := 4, size := 8 } ∧
    ((2 : Rat) ^ 2 = 4 ∧ (0 : Rat) ≤ 2) := by
  refine ⟨?_, ?_, ?_, by norm_num⟩
  · intro values name
    unfold getVariableStats
    cases hv : tget values name with
    | none => simp
    | some data =>
      cases data with
      | nil => simp
      | cons d ds => simp
  · intro values name v st hv hst
    unfold getVariableStats at hst
    rw [hv] at hst
    cases v with
    | nil => simp at hst
    | cons d ds =>
      simp only [List.length_cons] at hst
      rw [if_neg (Nat.succ_ne_zero ds.length)] at hst
      have hrec := (Option.some.inj hst).symm
      subst hrec
      have hne : (((d :: ds).length : Nat) : Rat) ≠ 0 :=
        Nat.cast_ne_zero.mpr (by simp)
      refine ⟨rfl, ?_, ?_, ?_, ?_, ?_, ?_⟩
      · exact foldl_min_mem ds d
      · intro x hx
        rcases List.mem_cons.mp hx with hxd | hxs
        · exact hxd ▸ foldl_min_le_init ds d
        · exact foldl_min_le_mem ds d x hxs
      · exact foldl_max_mem ds d
      · intro x hx
        rcases List.mem_cons.mp hx with hxd | hxs
        · exact hxd ▸ foldl_max_ge_init ds d
        · exact foldl_max_ge_mem ds d x hxs
      · exact div_mul_cancel₀ _ hne
      · exact div_mul_cancel₀ _ hne
  · norm_num [getVariableStats, tget, List.find?, listMin, listMax, List.foldl,
      min_def, max_def]

/-- C8 witness: the full-series clause of the statistics theorem at the
concrete example series. -/
theorem stats_spec_witness :
    ({ min := 2, max := 9, mean := 5, stdSq := 4, size := 8 } : VarStats).min
      ∈ ([2, 4, 4, 4, 5, 5, 7, 9] : Series) := by
  have h := stats_spec.2.1 [("x", [(2 : Rat), 4, 4, 4, 5, 5, 7, 9])] "x"
    [2, 4, 4, 4, 5, 5, 7, 9] { min := 2, max := 9, mean := 5, stdSq := 4, size := 8 }
    (by decide)
    (by norm_num [getVariableStats, tget, List.find?, listMin, listMax, List.foldl,
      min_def, max_def])
  exact h.2.1

/-! ## Claim C9 -/

/-- C9 counterexample: the key `der(x)-v[1]` contains `(` and `)` (so by
the claim it must evaluate to `[]` for every table), yet with both
operands resolved it evaluates to their elementwise difference `[3]`. -/
theorem expression_always_empty_counterexample :
    isExpression "der(x)-v[1]" = true ∧
    ("der(x)-v[1]".toList.contains '(') = true ∧
    evaluateExpression "der(x)-v[1]" [("der(x)", [(5 : Rat)]), ("v[1]", [2])] = [3] ∧
    ([(3 : Rat)] ≠ ([] : Series)) := by
  refine ⟨by decide, by decide, ?_, by simp⟩
  have h := evaluateExpression_sub_general "der(x)-v[1]"
    [("der(x)", [(5 : Rat)]), ("v[1]", [2])] "der(x)" "v[1]" [5] [2]
    (by decide) (by decide) (by decide) (by decide) (by decide) (by decide) (by decide)
  rw [h]
  norm_num [List.zipWith]

/-- C9 amended: `isExpression` is true exactly when the key contains one
of `+ - * / ( )`; evaluation returns `[]` whenever the key lacks `-` or
lacks `[`, and whenever the split on `-` has more than two parts; in
particular `isExpression("a+b")` is true while `evaluate("a+b", table)`
is `[]` for every table. -/
theorem expression_detection :
    (∀ key : String, isExpression key = true ↔
      ∃ c, c ∈ key.toList ∧ c ∈ (['+', '-', '*', '/', '(', ')'] : List Char)) ∧
    (∀ (key : String) (tbl : Table),
      (key.toList.contains '-' = false ∨ key.toList.contains '[' = false) →
      evaluateExpression key tbl = []) ∧
    (∀ (key : String) (tbl : Table) (p1 p2 : String) (ps : List String),
      pySplit '-' key = p1 :: p2 :: ps → ps ≠ [] →
      evaluateExpression key tbl = []) ∧
    (∀ tbl : Table, isExpression "a+b" = true ∧ evaluateExpression "a+b" tbl = []) := by
  refine ⟨?_, ?_, ?_, ?_⟩
  · intro key
    unfold isExpression
    rw [List.any_eq_true]
    constructor
    · rintro ⟨op, hop, hcont⟩
      exact ⟨op, by simpa using hcont, hop⟩
    · rintro ⟨c, hc, hmem⟩
      exact ⟨c, hmem, by simpa using hc⟩
  · intro key tbl h
    unfold evaluateExpression
    rcases h with h | h
    · rw [h]
      simp
    · rw [h]
      simp
  · intro key tbl p1 p2 ps hsplit hne
    unfold evaluateExpression
    cases hg : (key.toList.contains '-' && key.toList.contains '[') with
    | false => simp [hg]
    | true =>
      cases hps : ps with
      | nil => exact absurd hps hne
      | cons q qs =>
        subst hps
        simp [hg, hsplit]
  · intro tbl
    refine ⟨by decide, ?_⟩
    have h : ("a+b".toList.contains '-') = false := by decide
    unfold evaluateExpression
    rw [h]
    simp

/-- C9 witness: the amended theorem's clauses at concrete inputs — an
unsupported `+` key and a three-operand subtraction both evaluate
empty. -/
theorem expression_detection_witness :
    evaluateExpression "a+b" [("a", [(1 : Rat)]), ("b", [2])] = [] ∧
    evaluateExpression "x[1]-y[1]-z[1]" [] = [] := by
  constructor
  · exact (expression_detection.2.2.2 [("a", [(1 : Rat)]), ("b", [2])]).2
  · exact expression_detection.2.2.1 "x[1]-y[1]-z[1]" [] "x[1]" "y[1]" ["z[1]"]
      (by decide) (by decide)

end ModelicaMat
